import Mathlib

/-!
# Bounded producer/consumer table (`producer.c`, `consumer.c`)

A shallow embedding of the two worker loops `producer_thread` and
`consumer_thread`, of the shared record `shared_table_t` they mutate, of the
three POSIX semaphores that coordinate them, and of the helper `rand_range`.

* C `int` fields are `Int` values; every arithmetic result is reduced with
  `wrap32` (two's-complement wrap-around, which is what the `gcc` build of the
  increment `next_id++` on the shared record produces; ISO C leaves signed
  overflow undefined).
* `useconds_t` values are `Nat` values reduced modulo `2^32`.
* A semaphore is its non-negative value; `sem_wait` succeeds only on a
  positive value, may return `EINTR`, or may fail otherwise; `sem_post` may
  succeed or fail.
* The statements executed between a successful `sem_wait(sem_mutex)` and the
  following `sem_post(sem_mutex)` (the table update and the `printf` of the
  item) form one step of the model; `mutual_exclusion` shows that at most one
  worker is ever between the two calls.  The items printed there are kept, in
  mutex order, as the logs `produced` and `consumed`.
* `EINTR` and failure outcomes are possible at every semaphore call where the
  source tests for them, at any time; a thread that is cancelled or never
  scheduled again simply takes no further step.
-/

namespace PC

/-! ## Machine integers -/

/-- Two's-complement reduction of an integer to the range of a C `int`. -/
def wrap32 (x : Int) : Int := (x + 2147483648) % 4294967296 - 2147483648

/-- Range of a C `int`. -/
def int32 (x : Int) : Prop := -2147483648 ≤ x ∧ x ≤ 2147483647

instance (x : Int) : Decidable (int32 x) := by
  unfold int32; infer_instance

/-- Range of a `useconds_t` (32-bit unsigned). -/
def uint32 (x : Nat) : Prop := x < 4294967296

instance (x : Nat) : Decidable (uint32 x) := by
  unfold uint32; infer_instance

/-! ## `rand_range` (identical in both files) -/

/-- Embedding of `rand_range(a, b)` where `r` is the value returned by `rand()`.
`rand() % (b - a + 1)` is evaluated in `unsigned int`: the modulus is
`b - a + 1` reduced modulo `2^32`, and a zero modulus is undefined behaviour
(`none`). -/
def rand_range (a b : Nat) (r : Int) : Option Nat :=
  if b ≤ a then some a
  else
    let m := ((b + 4294967296 - a) % 4294967296 + 1) % 4294967296
    if m = 0 then none
    else some ((a + Int.toNat (r % 4294967296) % m) % 4294967296)

/-! ## The shared table -/

/-- Source constant `TABLE_CAP`. -/
abbrev TABLE_CAP : Int := 2

/-- Source record `shared_table_t`; the field `in` is spelled `in_`. -/
structure shared_table_t where
  buffer : List Int
  in_ : Int
  out : Int
  count : Int
  next_id : Int
deriving DecidableEq, Repr

/-- The record is well typed: `buffer` has `TABLE_CAP` cells and every field
holds a C `int`. -/
def shared_table_t.typed (t : shared_table_t) : Prop :=
  t.buffer.length = 2 ∧ (∀ x ∈ t.buffer, int32 x) ∧
    int32 t.in_ ∧ int32 t.out ∧ int32 t.count ∧ int32 t.next_id

instance (t : shared_table_t) : Decidable t.typed := by
  unfold shared_table_t.typed; infer_instance

/-- Array write `buffer[i] = v`.  An index outside `0 .. TABLE_CAP-1` is
undefined behaviour in C; the embedding leaves the array unchanged there. -/
def buffer_store (b : List Int) (i v : Int) : List Int :=
  if 0 ≤ i ∧ i < TABLE_CAP then b.set i.toNat v else b

/-- Array read `buffer[i]` (value `0` for an index outside the array). -/
def buffer_load (b : List Int) (i : Int) : Int :=
  if 0 ≤ i ∧ i < TABLE_CAP then b.getD i.toNat 0 else 0

/-- Lines 75-78 of `producer.c`: allocate an id and push it.  Returns the new
table and `item_id`. -/
def producer_critical (t : shared_table_t) : shared_table_t × Int :=
  let item_id := t.next_id
  let t1 := { t with next_id := wrap32 (t.next_id + 1) }
  let t2 := { t1 with buffer := buffer_store t1.buffer t1.in_ item_id }
  let t3 := { t2 with in_ := Int.tmod (wrap32 (t2.in_ + 1)) TABLE_CAP }
  let t4 := { t3 with count := wrap32 (t3.count + 1) }
  (t4, item_id)

/-- Lines 70-72 of `consumer.c`: pop the oldest item.  Returns the new table
and `item`. -/
def consumer_critical (t : shared_table_t) : shared_table_t × Int :=
  let item := buffer_load t.buffer t.out
  let t1 := { t with out := Int.tmod (wrap32 (t.out + 1)) TABLE_CAP }
  let t2 := { t1 with count := wrap32 (t1.count - 1) }
  (t2, item)

/-- The table found in a newly created shared-memory object (all bytes zero). -/
def zero_table : shared_table_t :=
  { buffer := [0, 0], in_ := 0, out := 0, count := 0, next_id := 0 }

/-- Lines 126-130 of `producer.c` (`main`): when the four bookkeeping fields
are all zero the record is cleared with `memset`. -/
def owner_init (t : shared_table_t) : shared_table_t :=
  let fresh := t.in_ = 0 ∧ t.out = 0 ∧ t.count = 0 ∧ t.next_id = 0
  if fresh then { buffer := List.replicate t.buffer.length 0, in_ := 0, out := 0,
                  count := 0, next_id := 0 }
  else t

/-- The `count` live entries `buffer[out], ..., buffer[(out+count-1) mod N]`,
oldest first. -/
def live (t : shared_table_t) : List Int :=
  (List.range t.count.toNat).map
    (fun (i : Nat) => buffer_load t.buffer ((t.out + (i : Int)) % TABLE_CAP))

/-! ## Workers, semaphores and the step function -/

/-- Which loop a worker runs. -/
inductive Role where
  | producer
  | consumer
deriving DecidableEq, Repr

/-- Control points of a worker loop.  `wait_avail` is the first `sem_wait` of
an iteration (`sem_empty` in `producer_thread`, `sem_full` in
`consumer_thread`); `undo_eintr` and `undo_fail` are the two `sem_post` calls
that give the counting semaphore back after a failed `sem_wait(sem_mutex)`;
`post_signal` is the final `sem_post` of the complementary counting
semaphore; `delay` is the `usleep`. -/
inductive Pc where
  | loop_top
  | wait_avail
  | wait_mutex
  | undo_eintr
  | undo_fail
  | critical
  | post_mutex
  | post_signal
  | delay
  | exited
deriving DecidableEq, Repr

/-- Result of one library call: success, `-1` with `errno == EINTR`, or `-1`
with another `errno`. -/
inductive Outcome where
  | ok
  | eintr
  | fail
deriving DecidableEq, Repr

/-- A worker thread: its loop, its control point, and the auxiliary flag
`holds`, set by a successful `sem_wait(sem_mutex)` and cleared by a successful
`sem_post(sem_mutex)`. -/
structure Worker where
  role : Role
  pc : Pc
  holds : Bool
deriving DecidableEq, Repr

/-- Global state: the shared table, the three semaphore values, the `g_run`
flag of each program, the items printed inside the critical sections (in
mutex order), and the workers (a worker's index is its `thread_id`). -/
structure Sys where
  tbl : shared_table_t
  sem_empty : Nat
  sem_full : Nat
  sem_mutex : Nat
  g_run_producer : Bool
  g_run_consumer : Bool
  produced : List Int
  consumed : List Int
  workers : List Worker
deriving DecidableEq, Repr

/-- One step of `producer_thread` (lines 58-98) for the worker `w`, given the
outcome of the library call made at its control point.  `none`: the call
blocks, or the outcome does not apply. -/
def producer_thread (s : Sys) (w : Worker) (ev : Outcome) : Option (Sys × Worker) :=
  match w.pc, ev with
  | .loop_top, .ok =>
      if s.g_run_producer then some (s, { w with pc := .wait_avail })
      else some (s, { w with pc := .exited })
  | .wait_avail, .ok =>
      if 0 < s.sem_empty then
        some ({ s with sem_empty := s.sem_empty - 1 }, { w with pc := .wait_mutex })
      else none
  | .wait_avail, .eintr => some (s, { w with pc := .loop_top })
  | .wait_avail, .fail => some (s, { w with pc := .exited })
  | .wait_mutex, .ok =>
      if 0 < s.sem_mutex then
        some ({ s with sem_mutex := s.sem_mutex - 1 },
              { w with pc := .critical, holds := true })
      else none
  | .wait_mutex, .eintr => some (s, { w with pc := .undo_eintr })
  | .wait_mutex, .fail => some (s, { w with pc := .undo_fail })
  | .undo_eintr, .ok =>
      some ({ s with sem_empty := s.sem_empty + 1 }, { w with pc := .loop_top })
  | .undo_eintr, .fail => some (s, { w with pc := .loop_top })
  | .undo_fail, .ok =>
      some ({ s with sem_empty := s.sem_empty + 1 }, { w with pc := .exited })
  | .undo_fail, .fail => some (s, { w with pc := .exited })
  | .critical, .ok =>
      let r := producer_critical s.tbl
      some ({ s with tbl := r.1, produced := s.produced ++ [r.2] },
            { w with pc := .post_mutex })
  | .post_mutex, .ok =>
      some ({ s with sem_mutex := s.sem_mutex + 1 },
            { w with pc := .post_signal, holds := false })
  | .post_mutex, .fail => some (s, { w with pc := .exited })
  | .post_signal, .ok =>
      some ({ s with sem_full := s.sem_full + 1 }, { w with pc := .delay })
  | .post_signal, .fail => some (s, { w with pc := .exited })
  | .delay, .ok => some (s, { w with pc := .loop_top })
  | _, _ => none

/-- One step of `consumer_thread` (lines 54-92), as `producer_thread`. -/
def consumer_thread (s : Sys) (w : Worker) (ev : Outcome) : Option (Sys × Worker) :=
  match w.pc, ev with
  | .loop_top, .ok =>
      if s.g_run_consumer then some (s, { w with pc := .wait_avail })
      else some (s, { w with pc := .exited })
  | .wait_avail, .ok =>
      if 0 < s.sem_full then
        some ({ s with sem_full := s.sem_full - 1 }, { w with pc := .wait_mutex })
      else none
  | .wait_avail, .eintr => some (s, { w with pc := .loop_top })
  | .wait_avail, .fail => some (s, { w with pc := .exited })
  | .wait_mutex, .ok =>
      if 0 < s.sem_mutex then
        some ({ s with sem_mutex := s.sem_mutex - 1 },
              { w with pc := .critical, holds := true })
      else none
  | .wait_mutex, .eintr => some (s, { w with pc := .undo_eintr })
  | .wait_mutex, .fail => some (s, { w with pc := .undo_fail })
  | .undo_eintr, .ok =>
      some ({ s with sem_full := s.sem_full + 1 }, { w with pc := .loop_top })
  | .undo_eintr, .fail => some (s, { w with pc := .loop_top })
  | .undo_fail, .ok =>
      some ({ s with sem_full := s.sem_full + 1 }, { w with pc := .exited })
  | .undo_fail, .fail => some (s, { w with pc := .exited })
  | .critical, .ok =>
      let r := consumer_critical s.tbl
      some ({ s with tbl := r.1, consumed := s.consumed ++ [r.2] },
            { w with pc := .post_mutex })
  | .post_mutex, .ok =>
      some ({ s with sem_mutex := s.sem_mutex + 1 },
            { w with pc := .post_signal, holds := false })
  | .post_mutex, .fail => some (s, { w with pc := .exited })
  | .post_signal, .ok =>
      some ({ s with sem_empty := s.sem_empty + 1 }, { w with pc := .delay })
  | .post_signal, .fail => some (s, { w with pc := .exited })
  | .delay, .ok => some (s, { w with pc := .loop_top })
  | _, _ => none

/-- What can happen next: worker `tid` completes the library call at its
control point with the given outcome, or `handle_sigint` runs in one of the
two programs. -/
inductive Label where
  | thread (tid : Nat) (ev : Outcome)
  | sigint_producer
  | sigint_consumer
deriving DecidableEq, Repr

/-- The step function of the whole system. -/
def step (s : Sys) : Label → Option Sys
  | .sigint_producer => some { s with g_run_producer := false }
  | .sigint_consumer => some { s with g_run_consumer := false }
  | .thread tid ev =>
      match s.workers[tid]? with
      | none => none
      | some w =>
          match (match w.role with
                 | .producer => producer_thread s w ev
                 | .consumer => consumer_thread s w ev) with
          | none => none
          | some (s1, w1) => some { s1 with workers := s1.workers.set tid w1 }

/-- A worker at the top of its loop. -/
def fresh_worker (r : Role) : Worker := { role := r, pc := .loop_top, holds := false }

/-- The state set up by the two `main` functions: the table of a new
shared-memory object after `owner_init`, the semaphores created with values
`(TABLE_CAP, 0, 1)`, both `g_run` flags set, `np` producer threads followed by
`nc` consumer threads. -/
def init (np nc : Nat) : Sys :=
  { tbl := owner_init zero_table
    sem_empty := 2
    sem_full := 0
    sem_mutex := 1
    g_run_producer := true
    g_run_consumer := true
    produced := []
    consumed := []
    workers := List.replicate np (fresh_worker .producer) ++
               List.replicate nc (fresh_worker .consumer) }

/-- Runs a list of labels from `s`. -/
def run (s : Sys) : List Label → Option Sys
  | [] => some s
  | l :: ls =>
      match step s l with
      | none => none
      | some s1 => run s1 ls

/-- States reachable from `s0` by steps of the system. -/
inductive Reachable (s0 : Sys) : Sys → Prop where
  | start : Reachable s0 s0
  | next {s s1 : Sys} (l : Label) : Reachable s0 s → step s l = some s1 → Reachable s0 s1

/-- The semaphores of the triad. -/
inductive Sem where
  | empty
  | full
  | mutex
deriving DecidableEq, Repr

/-- A semaphore call: `sem_wait` or `sem_post` on one semaphore. -/
inductive SemCall where
  | wait (x : Sem)
  | post (x : Sem)
deriving DecidableEq, Repr

/-- The counting semaphore a worker waits on at `wait_avail`. -/
def Role.avail : Role → Sem
  | .producer => .empty
  | .consumer => .full

/-- The counting semaphore a worker posts at `post_signal`. -/
def Role.signal : Role → Sem
  | .producer => .full
  | .consumer => .empty

/-- The semaphore call written in the source at each control point. -/
def sem_call_at (r : Role) : Pc → Option SemCall
  | .wait_avail => some (.wait r.avail)
  | .wait_mutex => some (.wait .mutex)
  | .undo_eintr => some (.post r.avail)
  | .undo_fail => some (.post r.avail)
  | .post_mutex => some (.post .mutex)
  | .post_signal => some (.post r.signal)
  | _ => none

/-- The `g_run` flag read by a worker of the given role. -/
def Sys.g_run (s : Sys) : Role → Bool
  | .producer => s.g_run_producer
  | .consumer => s.g_run_consumer

/-- The value of a semaphore. -/
def Sys.sem (s : Sys) : Sem → Nat
  | .empty => s.sem_empty
  | .full => s.sem_full
  | .mutex => s.sem_mutex

/-- The next semaphore call worker `w` makes when it runs on from state `s`
with the `g_run` flag as it is in `s`; `none` when it leaves the loop without
making one. -/
def next_sem_call (s : Sys) (w : Worker) : Option SemCall :=
  match w.pc with
  | .loop_top => if s.g_run w.role then some (.wait w.role.avail) else none
  | .delay => if s.g_run w.role then some (.wait w.role.avail) else none
  | .critical => some (.post .mutex)
  | .exited => none
  | p => sem_call_at w.role p

/-- Weight 1 for a worker that has taken a unit of `sem_empty` (a producer
between its `sem_wait(sem_empty)` and its push) or owes one (a consumer
between its pop and its `sem_post(sem_empty)`). -/
def heldE (w : Worker) : Nat :=
  match w.role, w.pc with
  | .producer, .wait_mutex => 1
  | .producer, .undo_eintr => 1
  | .producer, .undo_fail => 1
  | .producer, .critical => 1
  | .consumer, .post_mutex => 1
  | .consumer, .post_signal => 1
  | _, _ => 0

/-- Weight 1 for a worker that has taken a unit of `sem_full` or owes one. -/
def heldF (w : Worker) : Nat :=
  match w.role, w.pc with
  | .consumer, .wait_mutex => 1
  | .consumer, .undo_eintr => 1
  | .consumer, .undo_fail => 1
  | .consumer, .critical => 1
  | .producer, .post_mutex => 1
  | .producer, .post_signal => 1
  | _, _ => 0

/-- Weight 1 for a worker whose `holds` flag is set. -/
def heldM (w : Worker) : Nat := if w.holds then 1 else 0

/-- Per-worker consistency of the `holds` flag with the control point. -/
def WInv (w : Worker) : Prop :=
  (w.pc = .critical ∨ w.pc = .post_mutex → w.holds = true) ∧
  (w.holds = true → w.pc = .critical ∨ w.pc = .post_mutex ∨ w.pc = .exited)

/-- Table and log consistency. -/
def TblInv (s : Sys) : Prop :=
  s.tbl.buffer.length = 2 ∧
  (0 ≤ s.tbl.in_ ∧ s.tbl.in_ < 2) ∧ (0 ≤ s.tbl.out ∧ s.tbl.out < 2) ∧
  (0 ≤ s.tbl.count ∧ s.tbl.count ≤ 2) ∧
  s.tbl.in_ = (s.tbl.out + s.tbl.count) % 2 ∧
  s.produced = s.consumed ++ live s.tbl ∧
  s.tbl.next_id = wrap32 s.produced.length ∧
  s.produced = (List.range s.produced.length).map (fun (i : Nat) => wrap32 (i : Int))

/-- The inductive invariant of the system. -/
def Inv (s : Sys) : Prop :=
  TblInv s ∧
  (s.sem_empty : Int) + ((s.workers.map heldE).sum : Nat) + s.tbl.count ≤ 2 ∧
  (s.sem_full : Int) + ((s.workers.map heldF).sum : Nat) ≤ s.tbl.count ∧
  s.sem_mutex + (s.workers.map heldM).sum ≤ 1 ∧
  ∀ w ∈ s.workers, WInv w

/-- A well-typed table whose `next_id` is `INT_MAX`. -/
def table_at_int_max : shared_table_t :=
  { buffer := [0, 0], in_ := 0, out := 0, count := 0, next_id := 2147483647 }

/-! ## Concrete runs used as test inputs -/

/-- Producer 0 passes the loop test, `sem_wait(sem_empty)` and
`sem_wait(sem_mutex)`. -/
def trace_to_critical : List Label :=
  [.thread 0 .ok, .thread 0 .ok, .thread 0 .ok]

/-- State of one producer and one consumer after `trace_to_critical`. -/
def state_at_critical : Sys :=
  { tbl := zero_table
    sem_empty := 1
    sem_full := 0
    sem_mutex := 0
    g_run_producer := true
    g_run_consumer := true
    produced := []
    consumed := []
    workers := [{ role := .producer, pc := .critical, holds := true },
                fresh_worker .consumer] }

/-- Producer 0 runs up to and including its critical section. -/
def trace_one_push : List Label :=
  trace_to_critical ++ [.thread 0 .ok]

/-- State of one producer and one consumer after `trace_one_push`. -/
def state_one_push : Sys :=
  { tbl := { buffer := [0, 0], in_ := 1, out := 0, count := 1, next_id := 1 }
    sem_empty := 1
    sem_full := 0
    sem_mutex := 0
    g_run_producer := true
    g_run_consumer := true
    produced := [0]
    consumed := []
    workers := [{ role := .producer, pc := .post_mutex, holds := true },
                fresh_worker .consumer] }

theorem wrap32_of_int32 (x : Int) (h : int32 x) : wrap32 x = x := by
  unfold int32 at h
  unfold wrap32
  omega

theorem wrap32_succ (x : Int) : wrap32 (wrap32 x + 1) = wrap32 (x + 1) := by
  unfold wrap32
  omega

theorem wrap32_int32 (x : Int) : int32 (wrap32 x) := by
  unfold wrap32 int32
  omega

/-! ## The critical sections as functions on the table -/

/-- C5, as the code has it: on a well-typed table with `0 <= in < N`,
`count < N` and `next_id < INT_MAX`, the producer's critical section stores
the old `next_id` at `buffer[old in]`, sets `in = (old in + 1) mod N`,
`count = old count + 1`, `next_id = old next_id + 1`, leaves `out` and every
other buffer cell unchanged, and the item written is the old `next_id`. -/
theorem producer_critical_spec (t : shared_table_t) (ht : t.typed)
    (hin : 0 ≤ t.in_ ∧ t.in_ < TABLE_CAP) (hc : t.count < TABLE_CAP)
    (hid : t.next_id < 2147483647) :
    buffer_load (producer_critical t).1.buffer t.in_ = t.next_id ∧
    (producer_critical t).1.in_ = (t.in_ + 1) % TABLE_CAP ∧
    (producer_critical t).1.count = t.count + 1 ∧
    (producer_critical t).1.next_id = t.next_id + 1 ∧
    (producer_critical t).1.out = t.out ∧
    (∀ j, j ≠ t.in_ → buffer_load (producer_critical t).1.buffer j = buffer_load t.buffer j) ∧
    (producer_critical t).1.buffer.length = t.buffer.length ∧
    (producer_critical t).2 = t.next_id := by
  obtain ⟨buf, i, o, c, n⟩ := t
  obtain ⟨hlen, -, -, -, hcr, hnr⟩ := ht
  simp only [TABLE_CAP, int32] at *
  match buf, hlen with
  | [a, b], _ =>
    have hi : i = 0 ∨ i = 1 := by omega
    have hn1 : wrap32 (n + 1) = n + 1 := wrap32_of_int32 _ (by unfold int32; omega)
    have hc1 : wrap32 (c + 1) = c + 1 := wrap32_of_int32 _ (by unfold int32; omega)
    refine ⟨?_, ?_, ?_, ?_, ?_, ?_, ?_, ?_⟩
    · rcases hi with rfl | rfl <;> simp [producer_critical, buffer_load, buffer_store]
    · rcases hi with rfl | rfl <;> simp [producer_critical] <;> decide
    · simp [producer_critical, hc1]
    · simp [producer_critical, hn1]
    · simp [producer_critical]
    · intro j hj
      by_cases hj0 : 0 ≤ j ∧ j < 2
      · have hjv : j = 0 ∨ j = 1 := by omega
        rcases hi with rfl | rfl <;> rcases hjv with rfl | rfl <;>
          simp [producer_critical, buffer_load, buffer_store] at hj ⊢
      · simp [producer_critical, buffer_load, hj0]
    · rcases hi with rfl | rfl <;> simp [producer_critical, buffer_store]
    · simp [producer_critical]

/-- Witness for `producer_critical_spec` on the zeroed table. -/
theorem producer_critical_spec_witness :
    buffer_load (producer_critical zero_table).1.buffer zero_table.in_ = zero_table.next_id ∧
    (producer_critical zero_table).1.in_ = (zero_table.in_ + 1) % TABLE_CAP ∧
    (producer_critical zero_table).1.count = zero_table.count + 1 ∧
    (producer_critical zero_table).1.next_id = zero_table.next_id + 1 ∧
    (producer_critical zero_table).1.out = zero_table.out ∧
    (∀ j, j ≠ zero_table.in_ →
      buffer_load (producer_critical zero_table).1.buffer j = buffer_load zero_table.buffer j) ∧
    (producer_critical zero_table).1.buffer.length = zero_table.buffer.length ∧
    (producer_critical zero_table).2 = zero_table.next_id :=
  producer_critical_spec zero_table (by decide) (by decide) (by decide) (by decide)

/-- C5 fails as stated: on the well-typed table `table_at_int_max`
(`in = 0`, `count = 0`, `next_id = INT_MAX`) the increment `next_id++` leaves
`next_id = INT_MIN`, not `old next_id + 1`. -/
theorem producer_critical_next_id_overflow :
    table_at_int_max.typed ∧
    (0 ≤ table_at_int_max.in_ ∧ table_at_int_max.in_ < TABLE_CAP) ∧
    table_at_int_max.count < TABLE_CAP ∧
    (producer_critical table_at_int_max).1.next_id = -2147483648 ∧
    (producer_critical table_at_int_max).1.next_id ≠ table_at_int_max.next_id + 1 := by
  decide

/-- C6: on a well-typed table with `0 <= out < N` and `count > 0`, the
consumer's critical section returns `buffer[old out]`, sets
`out = (old out + 1) mod N` and `count = old count - 1`, and leaves `in`,
`next_id` and the whole buffer unchanged. -/
theorem consumer_critical_spec (t : shared_table_t) (ht : t.typed)
    (hout : 0 ≤ t.out ∧ t.out < TABLE_CAP) (hc : 0 < t.count) :
    (consumer_critical t).2 = buffer_load t.buffer t.out ∧
    (consumer_critical t).1.out = (t.out + 1) % TABLE_CAP ∧
    (consumer_critical t).1.count = t.count - 1 ∧
    (consumer_critical t).1.in_ = t.in_ ∧
    (consumer_critical t).1.next_id = t.next_id ∧
    (consumer_critical t).1.buffer = t.buffer := by
  obtain ⟨buf, i, o, c, n⟩ := t
  obtain ⟨-, -, -, -, hcr, -⟩ := ht
  simp only [TABLE_CAP, int32] at *
  have ho : o = 0 ∨ o = 1 := by omega
  have hc1 : wrap32 (c - 1) = c - 1 := wrap32_of_int32 _ (by unfold int32; omega)
  refine ⟨?_, ?_, ?_, ?_, ?_, ?_⟩
  · simp [consumer_critical]
  · rcases ho with rfl | rfl <;> simp [consumer_critical] <;> decide
  · simp [consumer_critical, hc1]
  · simp [consumer_critical]
  · simp [consumer_critical]
  · simp [consumer_critical]

/-- Witness for `consumer_critical_spec` on the table after one push. -/
theorem consumer_critical_spec_witness :
    (consumer_critical (producer_critical zero_table).1).2 =
      buffer_load (producer_critical zero_table).1.buffer (producer_critical zero_table).1.out ∧
    (consumer_critical (producer_critical zero_table).1).1.out =
      ((producer_critical zero_table).1.out + 1) % TABLE_CAP ∧
    (consumer_critical (producer_critical zero_table).1).1.count =
      (producer_critical zero_table).1.count - 1 ∧
    (consumer_critical (producer_critical zero_table).1).1.in_ =
      (producer_critical zero_table).1.in_ ∧
    (consumer_critical (producer_critical zero_table).1).1.next_id =
      (producer_critical zero_table).1.next_id ∧
    (consumer_critical (producer_critical zero_table).1).1.buffer =
      (producer_critical zero_table).1.buffer :=
  consumer_critical_spec (producer_critical zero_table).1 (by decide) (by decide) (by decide)

/-! ## `rand_range` -/

/-- C10 at its failing input: for `a = 0`, `b = UINT_MAX` the modulus
`b - a + 1` wraps to zero, so `rand() % (b - a + 1)` is undefined for every
value of `rand()`. -/
theorem rand_range_zero_modulus (r : Int) : rand_range 0 4294967295 r = none := by
  simp [rand_range]

/-- Away from `(0, UINT_MAX)` the function is defined, returns `a` when
`b <= a`, and otherwise a value between `a` and `b`. -/
theorem rand_range_bounds (a b : Nat) (r : Int) (ha : uint32 a) (hb : uint32 b)
    (hne : ¬ (a = 0 ∧ b = 4294967295)) :
    (b ≤ a → rand_range a b r = some a) ∧
    (a < b → ∃ v, rand_range a b r = some v ∧ a ≤ v ∧ v ≤ b) := by
  unfold uint32 at ha hb
  constructor
  · intro h
    simp [rand_range, h]
  · intro h
    have hm : ((b + 4294967296 - a) % 4294967296 + 1) % 4294967296 = b - a + 1 := by omega
    have hlt : Int.toNat (r % 4294967296) % (b - a + 1) < b - a + 1 :=
      Nat.mod_lt _ (by omega)
    refine ⟨(a + Int.toNat (r % 4294967296) % (b - a + 1)) % 4294967296, ?_, ?_, ?_⟩
    · simp only [rand_range, hm]
      rw [if_neg (by omega), if_neg (by omega)]
    · omega
    · omega

/-! ## Invariant preservation -/

theorem sum_map_set (f : Worker → Nat) (l : List Worker) (i : Nat) (w w1 : Worker)
    (h : l[i]? = some w) : ((l.set i w1).map f).sum + f w = (l.map f).sum + f w1 := by
  induction l generalizing i with
  | nil => simp at h
  | cons x xs ih =>
    cases i with
    | zero =>
      simp at h
      subst h
      simp only [List.set, List.map_cons, List.sum_cons]
      omega
    | succ j =>
      simp at h
      have := ih j h
      simp only [List.set, List.map_cons, List.sum_cons]
      omega

theorem TblInv_push (s : Sys) (h : TblInv s) (hc : s.tbl.count < 2) :
    TblInv { s with tbl := (producer_critical s.tbl).1,
                    produced := s.produced ++ [(producer_critical s.tbl).2] } ∧
    (producer_critical s.tbl).1.count = s.tbl.count + 1 := by
  obtain ⟨tbl, se, sf, sm, gp, gc, prod, cons, ws⟩ := s
  obtain ⟨buf, i, o, c, n⟩ := tbl
  obtain ⟨hlen, hi, ho, hcr, hio, hlog, hid, hmap⟩ := h
  simp only at hlen hi ho hcr hio hlog hid hmap hc
  match buf, hlen with
  | [a, b], _ =>
    have hcv : c = 0 ∨ c = 1 := by omega
    have hov : o = 0 ∨ o = 1 := by omega
    have e1 : wrap32 1 = 1 := by decide
    have e2 : wrap32 2 = 2 := by decide
    have hnext : wrap32 (n + 1) = wrap32 (((prod ++ [n]).length : Nat) : Int) := by
      rw [hid, wrap32_succ]
      simp
    have hmap2 : prod ++ [n] =
        (List.range (prod ++ [n]).length).map (fun (i : Nat) => wrap32 (i : Int)) := by
      rw [List.length_append, List.length_singleton, List.range_succ, List.map_append, ← hmap]
      simp [hid]
    refine ⟨⟨?_, ?_, ?_, ?_, ?_, ?_, hnext, hmap2⟩, ?_⟩
    · rcases hcv with rfl | rfl <;> rcases hov with rfl | rfl <;>
        simp at hio <;> subst hio <;> simp [producer_critical, buffer_store]
    · rcases hcv with rfl | rfl <;> rcases hov with rfl | rfl <;>
        simp at hio <;> subst hio <;> simp [producer_critical, e1, e2] <;> decide
    · exact ho
    · rcases hcv with rfl | rfl <;> simp [producer_critical, e1, e2]
    · rcases hcv with rfl | rfl <;> rcases hov with rfl | rfl <;>
        simp at hio <;> subst hio <;> simp [producer_critical, e1, e2] <;> decide
    · rcases hcv with rfl | rfl <;> rcases hov with rfl | rfl <;>
        simp at hio <;> subst hio <;>
        simp [live, buffer_load, List.range_succ] at hlog <;> subst hlog <;>
        simp [producer_critical, e1, e2, live, buffer_load, buffer_store, List.range_succ]
    · rcases hcv with rfl | rfl <;> simp [producer_critical, e1, e2]

theorem TblInv_pop (s : Sys) (h : TblInv s) (hc : 0 < s.tbl.count) :
    TblInv { s with tbl := (consumer_critical s.tbl).1,
                    consumed := s.consumed ++ [(consumer_critical s.tbl).2] } ∧
    (consumer_critical s.tbl).1.count = s.tbl.count - 1 := by
  obtain ⟨tbl, se, sf, sm, gp, gc, prod, cons, ws⟩ := s
  obtain ⟨buf, i, o, c, n⟩ := tbl
  obtain ⟨hlen, hi, ho, hcr, hio, hlog, hid, hmap⟩ := h
  simp only at hlen hi ho hcr hio hlog hid hmap hc
  match buf, hlen with
  | [a, b], _ =>
    have hcv : c = 1 ∨ c = 2 := by omega
    have hov : o = 0 ∨ o = 1 := by omega
    have e0 : wrap32 0 = 0 := by decide
    have t1 : Int.tmod 1 2 = 1 := by decide
    have t2 : Int.tmod 2 2 = 0 := by decide
    have e1 : wrap32 1 = 1 := by decide
    have e2 : wrap32 2 = 2 := by decide
    refine ⟨⟨?_, ?_, ?_, ?_, ?_, ?_, ?_, ?_⟩, ?_⟩
    · simp [consumer_critical]
    · exact hi
    · rcases hov with rfl | rfl <;> simp [consumer_critical, e1, e2, t1, t2]
    · rcases hcv with rfl | rfl <;> simp [consumer_critical, e0, e1]
    · rcases hcv with rfl | rfl <;> rcases hov with rfl | rfl <;>
        simp at hio <;> subst hio <;> simp [consumer_critical, e0, e1, e2] <;> decide
    · rcases hcv with rfl | rfl <;> rcases hov with rfl | rfl <;>
        simp [live, buffer_load, List.range_succ] at hlog <;> subst hlog <;>
        simp [consumer_critical, e0, e1, e2, t1, t2, live, buffer_load, List.range_succ, TABLE_CAP]
    · exact hid
    · exact hmap
    · rcases hcv with rfl | rfl <;> simp [consumer_critical, e0, e1]

theorem producer_thread_local (s s1 : Sys) (w w1 : Worker) (ev : Outcome)
    (h : producer_thread s w ev = some (s1, w1)) (hr : w.role = .producer)
    (hw : WInv w) (ht : TblInv s) (hcap : heldE w = 1 → s.tbl.count < 2) :
    TblInv s1 ∧ WInv w1 ∧ w1.role = w.role ∧ s1.workers = s.workers ∧
    (s1.sem_empty : Int) + (heldE w1 : Nat) + s1.tbl.count ≤
      (s.sem_empty : Int) + (heldE w : Nat) + s.tbl.count ∧
    (s1.sem_full : Int) + (heldF w1 : Nat) - s1.tbl.count ≤
      (s.sem_full : Int) + (heldF w : Nat) - s.tbl.count ∧
    s1.sem_mutex + heldM w1 ≤ s.sem_mutex + heldM w := by
  obtain ⟨r, pc, hold⟩ := w
  simp only at hr
  subst hr
  obtain ⟨hw1, hw2⟩ := hw
  cases pc <;> cases ev <;> simp only [producer_thread] at h <;> (try split at h) <;> cases h <;>
    cases hold
  all_goals first
    | (refine ⟨ht, ?_⟩
       simp [WInv, heldE, heldF, heldM] at hw1 hw2 ⊢
       try omega)
    | (have hp := TblInv_push s ht (hcap (by simp [heldE]))
       refine ⟨hp.1, ?_⟩
       simp [WInv, heldE, heldF, heldM, hp.2] at hw1 hw2 ⊢
       try omega)

theorem consumer_thread_local (s s1 : Sys) (w w1 : Worker) (ev : Outcome)
    (h : consumer_thread s w ev = some (s1, w1)) (hr : w.role = .consumer)
    (hw : WInv w) (ht : TblInv s) (hcap : heldF w = 1 → 0 < s.tbl.count) :
    TblInv s1 ∧ WInv w1 ∧ w1.role = w.role ∧ s1.workers = s.workers ∧
    (s1.sem_empty : Int) + (heldE w1 : Nat) + s1.tbl.count ≤
      (s.sem_empty : Int) + (heldE w : Nat) + s.tbl.count ∧
    (s1.sem_full : Int) + (heldF w1 : Nat) - s1.tbl.count ≤
      (s.sem_full : Int) + (heldF w : Nat) - s.tbl.count ∧
    s1.sem_mutex + heldM w1 ≤ s.sem_mutex + heldM w := by
  obtain ⟨r, pc, hold⟩ := w
  simp only at hr
  subst hr
  obtain ⟨hw1, hw2⟩ := hw
  cases pc <;> cases ev <;> simp only [consumer_thread] at h <;> (try split at h) <;> cases h <;>
    cases hold
  all_goals first
    | (refine ⟨ht, ?_⟩
       simp [WInv, heldE, heldF, heldM] at hw1 hw2 ⊢
       try omega)
    | (have hp := TblInv_pop s ht (hcap (by simp [heldF]))
       refine ⟨hp.1, ?_⟩
       simp [WInv, heldE, heldF, heldM, hp.2] at hw1 hw2 ⊢
       try omega)

theorem le_sum_map (f : Worker → Nat) (l : List Worker) (i : Nat) (w : Worker)
    (h : l[i]? = some w) : f w ≤ (l.map f).sum := by
  induction l generalizing i with
  | nil => simp at h
  | cons x xs ih =>
    cases i with
    | zero =>
      simp at h
      subst h
      simp
    | succ j =>
      simp at h
      have := ih j h
      simp only [List.map_cons, List.sum_cons]
      omega

theorem inv_init (np nc : Nat) : Inv (init np nc) := by
  refine ⟨?_, ?_, ?_, ?_, ?_⟩
  · simp [TblInv, init, owner_init, zero_table, live]
    decide
  · simp [init, owner_init, zero_table, heldE, fresh_worker]
  · simp [init, owner_init, zero_table, heldF, fresh_worker]
  · simp [init, heldM, fresh_worker]
  · intro w hw
    simp [init, fresh_worker] at hw
    rcases hw with ⟨-, rfl⟩ | ⟨-, rfl⟩ <;> simp [WInv]

theorem step_inv (s s1 : Sys) (l : Label) (h : step s l = some s1) (hi : Inv s) : Inv s1 := by
  obtain ⟨ht, hE, hF, hM, hW⟩ := hi
  cases l with
  | sigint_producer =>
    simp only [step, Option.some.injEq] at h
    subst h
    exact ⟨ht, hE, hF, hM, hW⟩
  | sigint_consumer =>
    simp only [step, Option.some.injEq] at h
    subst h
    exact ⟨ht, hE, hF, hM, hW⟩
  | thread tid ev =>
    simp only [step] at h
    cases hw : s.workers[tid]? with
    | none => rw [hw] at h; cases h
    | some w =>
      rw [hw] at h
      simp only at h
      have hmem : w ∈ s.workers := List.getElem?_mem hw
      have hWw := hW w hmem
      have hsE := sum_map_set heldE s.workers tid w
      have hsF := sum_map_set heldF s.workers tid w
      have hsM := sum_map_set heldM s.workers tid w
      have hlE := le_sum_map heldE s.workers tid w hw
      have hlF := le_sum_map heldF s.workers tid w hw
      have key : ∀ s2 w2,
          (TblInv s2 ∧ WInv w2 ∧ w2.role = w.role ∧ s2.workers = s.workers ∧
            (s2.sem_empty : Int) + (heldE w2 : Nat) + s2.tbl.count ≤
              (s.sem_empty : Int) + (heldE w : Nat) + s.tbl.count ∧
            (s2.sem_full : Int) + (heldF w2 : Nat) - s2.tbl.count ≤
              (s.sem_full : Int) + (heldF w : Nat) - s.tbl.count ∧
            s2.sem_mutex + heldM w2 ≤ s.sem_mutex + heldM w) →
          Inv { s2 with workers := s2.workers.set tid w2 } := by
        rintro s2 w2 ⟨h1, h2, -, h4, h5, h6, h7⟩
        have aE := hsE w2 hw
        have aF := hsF w2 hw
        have aM := hsM w2 hw
        refine ⟨h1, ?_, ?_, ?_, ?_⟩
        · simp only [h4]
          omega
        · simp only [h4]
          omega
        · simp only [h4]
          omega
        · intro x hx
          simp only [h4] at hx
          rcases List.mem_or_eq_of_mem_set hx with hx | rfl
          · exact hW x hx
          · exact h2
      cases hr : w.role with
      | producer =>
        rw [hr] at h
        simp only at h
        cases hp : producer_thread s w ev with
        | none => rw [hp] at h; cases h
        | some r =>
          obtain ⟨s2, w2⟩ := r
          rw [hp] at h
          simp only [Option.some.injEq] at h
          subst h
          have hloc := producer_thread_local s s2 w w2 ev hp hr hWw ht (by intro h1; omega)
          exact key s2 w2 hloc
      | consumer =>
        rw [hr] at h
        simp only at h
        cases hp : consumer_thread s w ev with
        | none => rw [hp] at h; cases h
        | some r =>
          obtain ⟨s2, w2⟩ := r
          rw [hp] at h
          simp only [Option.some.injEq] at h
          subst h
          have hloc := consumer_thread_local s s2 w w2 ev hp hr hWw ht (by intro h1; omega)
          exact key s2 w2 hloc

theorem reachable_inv (np nc : Nat) (s : Sys) (h : Reachable (init np nc) s) : Inv s := by
  induction h with
  | start => exact inv_init np nc
  | next l _ hs ih => exact step_inv _ _ l hs ih

/-! ## Reachability helpers -/

theorem reachable_run (s0 s s1 : Sys) (ls : List Label) (h : Reachable s0 s)
    (hr : run s ls = some s1) : Reachable s0 s1 := by
  induction ls generalizing s with
  | nil =>
    simp only [run, Option.some.injEq] at hr
    subst hr
    exact h
  | cons l ls ih =>
    simp only [run] at hr
    cases hs : step s l with
    | none => rw [hs] at hr; cases hr
    | some s2 =>
      rw [hs] at hr
      exact ih s2 (Reachable.next l h hs) hr

theorem reachable_state_at_critical : Reachable (init 1 1) state_at_critical :=
  reachable_run _ _ _ trace_to_critical Reachable.start (by decide)

theorem reachable_state_one_push : Reachable (init 1 1) state_one_push :=
  reachable_run _ _ _ trace_one_push Reachable.start (by decide)

/-! ## Claims about reachable states -/

/-- C1: in every reachable state of the system started from the zeroed table
with semaphores `(N, 0, 1)` and any numbers of producers and consumers (every
state of the model lies outside the critical sections' table updates),
`0 <= count <= N` and `in = (out + count) mod N`. -/
theorem count_bounds_and_index_relation (np nc : Nat) (s : Sys)
    (h : Reachable (init np nc) s) :
    (0 ≤ s.tbl.count ∧ s.tbl.count ≤ TABLE_CAP) ∧
    s.tbl.in_ = (s.tbl.out + s.tbl.count) % TABLE_CAP := by
  obtain ⟨⟨-, -, -, hc, hio, -⟩, -⟩ := reachable_inv np nc s h
  exact ⟨hc, hio⟩

/-- Witness for `count_bounds_and_index_relation` after one push. -/
theorem count_bounds_and_index_relation_witness :
    Reachable (init 1 1) state_one_push ∧
    ((0 ≤ state_one_push.tbl.count ∧ state_one_push.tbl.count ≤ TABLE_CAP) ∧
     state_one_push.tbl.in_ = (state_one_push.tbl.out + state_one_push.tbl.count) % TABLE_CAP) :=
  ⟨reachable_state_one_push,
   count_bounds_and_index_relation 1 1 state_one_push reachable_state_one_push⟩

/-- C2: in every reachable state the multiset of ids written by producers is
the multiset of ids read by consumers plus the multiset of the `count` live
buffer entries; hence with `count = 0` the consumed ids are exactly the
produced ids. -/
theorem produced_eq_consumed_add_live (np nc : Nat) (s : Sys)
    (h : Reachable (init np nc) s) :
    (s.produced : Multiset Int) = (s.consumed : Multiset Int) + (live s.tbl : Multiset Int) ∧
    (s.tbl.count = 0 → (s.consumed : Multiset Int) = (s.produced : Multiset Int)) := by
  obtain ⟨⟨-, -, -, -, -, hlog, -⟩, -⟩ := reachable_inv np nc s h
  constructor
  · rw [hlog]
    simp
  · intro hc
    have : live s.tbl = [] := by simp [live, hc]
    rw [hlog, this]
    simp

/-- Witness for `produced_eq_consumed_add_live` after one push. -/
theorem produced_eq_consumed_add_live_witness :
    Reachable (init 1 1) state_one_push ∧
    ((state_one_push.produced : Multiset Int) =
        (state_one_push.consumed : Multiset Int) + (live state_one_push.tbl : Multiset Int) ∧
     (state_one_push.tbl.count = 0 →
        (state_one_push.consumed : Multiset Int) = (state_one_push.produced : Multiset Int))) :=
  ⟨reachable_state_one_push,
   produced_eq_consumed_add_live 1 1 state_one_push reachable_state_one_push⟩

/-- C4: in every reachable state, a producer about to execute its critical
section finds `count < N` and a consumer about to execute its critical
section finds `count > 0`; equivalently, while `count = N` no worker at its
critical section is a producer (no push step is enabled) and while
`count = 0` none is a consumer (no pop step is enabled). -/
theorem critical_entry_guard (np nc : Nat) (s : Sys) (h : Reachable (init np nc) s)
    (tid : Nat) (w : Worker) (hw : s.workers[tid]? = some w) (hpc : w.pc = .critical) :
    (w.role = .producer → s.tbl.count < TABLE_CAP) ∧
    (w.role = .consumer → 0 < s.tbl.count) ∧
    (s.tbl.count = TABLE_CAP → w.role ≠ .producer) ∧
    (s.tbl.count = 0 → w.role ≠ .consumer) := by
  obtain ⟨-, hE, hF, -, -⟩ := reachable_inv np nc s h
  have hlE := le_sum_map heldE s.workers tid w hw
  have hlF := le_sum_map heldF s.workers tid w hw
  obtain ⟨r, pc, hold⟩ := w
  simp only at hpc
  subst hpc
  simp only [TABLE_CAP]
  cases r
  · simp only [heldE] at hlE
    exact ⟨fun _ => by omega, fun hr => (by cases hr), fun hc _ => (by omega),
      fun _ hr => (by cases hr)⟩
  · simp only [heldF] at hlF
    exact ⟨fun hr => (by cases hr), fun _ => (by omega), fun _ hr => (by cases hr),
      fun hc _ => (by omega)⟩

/-- Witness for `critical_entry_guard`: producer 0 at its critical section. -/
theorem critical_entry_guard_witness :
    Reachable (init 1 1) state_at_critical ∧
    state_at_critical.workers[0]? = some { role := .producer, pc := .critical, holds := true } ∧
    ((Role.producer = Role.producer → state_at_critical.tbl.count < TABLE_CAP) ∧
     (Role.producer = Role.consumer → 0 < state_at_critical.tbl.count) ∧
     (state_at_critical.tbl.count = TABLE_CAP → Role.producer ≠ Role.producer) ∧
     (state_at_critical.tbl.count = 0 → Role.producer ≠ Role.consumer)) :=
  ⟨reachable_state_at_critical, rfl,
   critical_entry_guard 1 1 state_at_critical reachable_state_at_critical 0
     { role := .producer, pc := .critical, holds := true } rfl rfl⟩

/-- Mutual exclusion: in every reachable state at most one worker holds the
mutex, and the semaphore value is zero while one does.  This is what makes the
statements between `sem_wait(sem_mutex)` and `sem_post(sem_mutex)` one step. -/
theorem mutual_exclusion (np nc : Nat) (s : Sys) (h : Reachable (init np nc) s)
    (i j : Nat) (wi wj : Worker) (hi : s.workers[i]? = some wi) (hj : s.workers[j]? = some wj)
    (hhi : wi.holds = true) (hhj : wj.holds = true) : i = j ∧ s.sem_mutex = 0 := by
  obtain ⟨-, -, -, hM, -⟩ := reachable_inv np nc s h
  have hli := le_sum_map heldM s.workers i wi hi
  have hwi : heldM wi = 1 := by simp [heldM, hhi]
  have hwj : heldM wj = 1 := by simp [heldM, hhj]
  refine ⟨?_, by omega⟩
  by_contra hne
  have hset := sum_map_set heldM s.workers i wi { wi with holds := false } hi
  have hj2 : (s.workers.set i { wi with holds := false })[j]? = some wj := by
    rw [List.getElem?_set, if_neg hne]
    exact hj
  have hlj := le_sum_map heldM _ j wj hj2
  have h0 : heldM { wi with holds := false } = 0 := by simp [heldM]
  omega

theorem getElem?_set_self (l : List Worker) (i : Nat) (w w2 : Worker)
    (h : l[i]? = some w) : (l.set i w2)[i]? = some w2 := by
  have hlt : i < l.length := by
    by_contra hc
    have : l[i]? = none := by simp; omega
    rw [h] at this
    cases this
  rw [List.getElem?_set]
  simp [hlt]

theorem step_thread_unfold (s s1 : Sys) (tid : Nat) (ev : Outcome) (w : Worker)
    (hw : s.workers[tid]? = some w) (h : step s (.thread tid ev) = some s1) :
    ∃ s2 w2,
      (match w.role with
       | .producer => producer_thread s w ev
       | .consumer => consumer_thread s w ev) = some (s2, w2) ∧
      s1 = { s2 with workers := s2.workers.set tid w2 } := by
  simp only [step, hw] at h
  cases hp : (match w.role with
       | .producer => producer_thread s w ev
       | .consumer => consumer_thread s w ev) with
  | none => rw [hp] at h; cases h
  | some r =>
    obtain ⟨s2, w2⟩ := r
    rw [hp] at h
    simp only [Option.some.injEq] at h
    exact ⟨s2, w2, rfl, h.symm⟩

/-- C9: in every reachable state a worker that holds the mutex is not at, nor
about to execute, a wait on `sem_empty` or `sem_full`: the next semaphore call
it makes, if any, is `sem_post(sem_mutex)`.  Moreover every step that brings a
worker to `sem_wait(sem_mutex)` is that worker's successful wait on its
counting semaphore, the mutex is acquired only by a successful wait issued
from there and released only by `sem_post(sem_mutex)`, and no step of a holder
changes `sem_empty` or `sem_full`. -/
theorem mutex_holder_never_waits (np nc : Nat) (s : Sys) (h : Reachable (init np nc) s)
    (tid : Nat) (w : Worker) (hw : s.workers[tid]? = some w) :
    (w.holds = true →
      (w.pc ≠ .wait_avail ∧ w.pc ≠ .loop_top ∧ w.pc ≠ .delay) ∧
      next_sem_call s w ≠ some (.wait .empty) ∧ next_sem_call s w ≠ some (.wait .full) ∧
      (next_sem_call s w = some (.post .mutex) ∨ next_sem_call s w = none)) ∧
    (∀ ev s1 w1, step s (.thread tid ev) = some s1 → s1.workers[tid]? = some w1 →
      (w1.pc = .wait_mutex →
        w.pc = .wait_avail ∧ ev = .ok ∧ w.holds = false ∧
        s1.sem w.role.avail + 1 = s.sem w.role.avail) ∧
      (w.holds = false → w1.holds = true →
        w.pc = .wait_mutex ∧ ev = .ok ∧ s1.sem_mutex + 1 = s.sem_mutex) ∧
      (w.holds = true → w1.holds = false →
        w.pc = .post_mutex ∧ ev = .ok ∧ s1.sem_mutex = s.sem_mutex + 1) ∧
      (w.holds = true → s1.sem_empty = s.sem_empty ∧ s1.sem_full = s.sem_full)) := by
  obtain ⟨-, -, -, -, hW⟩ := reachable_inv np nc s h
  obtain ⟨hw1, hw2⟩ := hW w (List.getElem?_mem hw)
  constructor
  · intro hh
    rcases hw2 hh with hp | hp | hp <;> simp [next_sem_call, sem_call_at, hp]
  · intro ev s1 w1 hs hw1'
    obtain ⟨s2, w2, hp, rfl⟩ := step_thread_unfold s s1 tid ev w hw hs
    obtain ⟨r, pc, hold⟩ := w
    simp only at hw1 hw2
    cases r
    · simp only at hp
      have hws : s2.workers = s.workers := by
        cases pc <;> cases ev <;> simp only [producer_thread] at hp <;>
          (try split at hp) <;> cases hp <;> rfl
      simp only [hws, getElem?_set_self _ _ _ w2 hw, Option.some.injEq] at hw1'
      subst hw1'
      cases pc <;> cases ev <;> simp only [producer_thread] at hp <;>
        (try split at hp) <;> cases hp <;> cases hold <;>
        simp [Sys.sem, Role.avail] at hw1 hw2 ⊢ <;> omega
    · simp only at hp
      have hws : s2.workers = s.workers := by
        cases pc <;> cases ev <;> simp only [consumer_thread] at hp <;>
          (try split at hp) <;> cases hp <;> rfl
      simp only [hws, getElem?_set_self _ _ _ w2 hw, Option.some.injEq] at hw1'
      subst hw1'
      cases pc <;> cases ev <;> simp only [consumer_thread] at hp <;>
        (try split at hp) <;> cases hp <;> cases hold <;>
        simp [Sys.sem, Role.avail] at hw1 hw2 ⊢ <;> omega

/-- Witness for `mutex_holder_never_waits`: producer 0 holding the mutex at its
critical section. -/
theorem mutex_holder_never_waits_witness :
    Reachable (init 1 1) state_at_critical ∧
    state_at_critical.workers[0]? = some { role := .producer, pc := .critical, holds := true } ∧
    (next_sem_call state_at_critical { role := .producer, pc := .critical, holds := true } =
        some (.post .mutex) ∨
     next_sem_call state_at_critical { role := .producer, pc := .critical, holds := true } =
        none) :=
  ⟨reachable_state_at_critical, rfl,
   ((mutex_holder_never_waits 1 1 state_at_critical reachable_state_at_critical 0
      { role := .producer, pc := .critical, holds := true } rfl).1 rfl).2.2.2⟩

/-! ## Interrupted waits -/

end PC
